import Mathlib

/-!
Verification of the configuration-resolution and URL-parsing core of the
page_generator repository, as a shallow embedding in Lean 4.

Conventions of the embedding:
* Python dictionaries (insertion-ordered, last-write-wins on overwrite,
  overwrite keeps the original position of the key) are modelled as
  association lists `List (String × String)` together with `dictInsert`.
* Python strings are modelled as Lean `String`/`List Char`; the string
  operations used by the code (`strip`, `lower`, `replace`, `in`,
  `startswith`) are implemented explicitly below with Python's semantics
  (ASCII granularity: `lower` is ASCII case mapping, the whitespace set is
  `Char.isWhitespace`).
* The regular expressions of `page_manager.py` are compiled by hand into
  deterministic character-list matchers; greedy quantifiers are resolved
  statically (a comment at each matcher records why the result is the
  match Python's engine finds, including the `re` facts that `.` does not
  match a newline and `$` also matches just before one final trailing
  newline).
* Fallible Python code returns `Except`; the distinct exception payloads
  raised by the source are modelled by explicit error inductives.
-/

set_option autoImplicit false

namespace PageGen

/-! ## Python dict model -/

/-- Lookup in a Python dict modelled as an association list: the first
binding of the key wins (association lists built by `dictInsert` hold each
key at most once). -/
def pyLookup : List (String × String) → String → Option String
  | [], _ => none
  | (a, b) :: t, k => if a = k then some b else pyLookup t k

/-- Python `d[k] = v`: if the key is present its value is replaced in
place (the key keeps its original position); otherwise the new binding is
appended at the end. -/
def dictInsert (m : List (String × String)) (k v : String) : List (String × String) :=
  if (pyLookup m k).isSome then
    m.map (fun p => if p.1 = k then (k, v) else p)
  else m ++ [(k, v)]

theorem pyLookup_map_replace_ne (m : List (String × String)) (a v k : String)
    (h : k ≠ a) :
    pyLookup (m.map (fun p => if p.1 = a then (a, v) else p)) k = pyLookup m k := by
  induction m with
  | nil => rfl
  | cons p t ih =>
      cases p with
      | mk x y =>
          simp only [List.map_cons]
          dsimp only
          by_cases hx : x = a
          · subst hx
            rw [if_pos rfl]
            simp only [pyLookup]
            rw [if_neg (fun hxk => h hxk.symm), if_neg (fun hxk => h hxk.symm), ih]
          · rw [if_neg hx]
            simp only [pyLookup]
            by_cases hk : x = k
            · rw [if_pos hk, if_pos hk]
            · rw [if_neg hk, if_neg hk, ih]

theorem pyLookup_map_replace_eq (m : List (String × String)) (a v : String)
    (h : (pyLookup m a).isSome) :
    pyLookup (m.map (fun p => if p.1 = a then (a, v) else p)) a = some v := by
  induction m with
  | nil => simp [pyLookup] at h
  | cons p t ih =>
      cases p with
      | mk x y =>
          simp only [List.map_cons]
          dsimp only
          by_cases hx : x = a
          · subst hx
            rw [if_pos rfl]
            simp [pyLookup]
          · simp only [pyLookup, if_neg hx] at h
            rw [if_neg hx]
            simp only [pyLookup]
            rw [if_neg hx]
            exact ih h

theorem pyLookup_append (m₁ m₂ : List (String × String)) (k : String) :
    pyLookup (m₁ ++ m₂) k
      = if (pyLookup m₁ k).isSome then pyLookup m₁ k else pyLookup m₂ k := by
  induction m₁ with
  | nil => simp [pyLookup]
  | cons p t ih =>
      cases p with
      | mk x y =>
          by_cases hx : x = k
          · simp [pyLookup, hx]
          · simp [pyLookup, hx, ih]

/-- Net effect of a Python dict store on later lookups. -/
theorem pyLookup_dictInsert (m : List (String × String)) (a v k : String) :
    pyLookup (dictInsert m a v) k = if k = a then some v else pyLookup m k := by
  unfold dictInsert
  by_cases hmem : (pyLookup m a).isSome
  · rw [if_pos hmem]
    by_cases hk : k = a
    · subst hk; simp [pyLookup_map_replace_eq m k v hmem]
    · simp [hk, pyLookup_map_replace_ne m a v k hk]
  · rw [if_neg hmem]
    rw [pyLookup_append]
    by_cases hk : k = a
    · subst hk
      simp only [Option.not_isSome_iff_eq_none] at hmem
      simp [hmem, pyLookup]
    · by_cases hsome : (pyLookup m k).isSome
      · simp [hsome, hk]
      · simp only [Option.not_isSome_iff_eq_none] at hsome
        simp only [hsome, Option.isSome_none, Bool.false_eq_true, if_false, pyLookup]
        rw [if_neg (fun hak => hk hak.symm), if_neg hk]

/-! ## JSON data model

A parsed JSON document, as handed to `JsonDataFile._break_down_json_data`
by `json.load`: objects keep their fields in insertion order, arrays keep
index order.  Numbers are modelled as integers (the repository's
configuration values are strings and integer ids). -/

mutual

inductive Json where
  | str (s : String)
  | num (n : Int)
  | bool (b : Bool)
  | null
  | arr (elems : JsonList)
  | obj (fields : JsonFields)

inductive JsonList where
  | nil
  | cons (head : Json) (tail : JsonList)

inductive JsonFields where
  | nil
  | cons (key : String) (value : Json) (tail : JsonFields)

end

/-- Concatenation of JSON object field lists (used to talk about a field
placed somewhere in the middle of an object). -/
def JsonFields.append : JsonFields → JsonFields → JsonFields
  | .nil, gs => gs
  | .cons k v t, gs => .cons k v (t.append gs)

/-- Python `str(remaining_key)` where `remaining_key : Option String` is the
current key context (`None` at the root): `str(None)` is the string
`"None"`. -/
def keyStr : Option String → String
  | none => "None"
  | some k => k

/-! ## The flattener `JsonDataFile._reverse_json`

Source (src/utils/json_utils.py):
```
if isinstance(json_data, dict):
    for key, value in json_data.items():
        self._reverse_json(value, data_model, key)
elif isinstance(json_data, list):
    for value in json_data:
        self._reverse_json(value, data_model, remaining_key)
else:
    data_model[str(remaining_key)] = str(json_data)
```
The accumulator dict `data_model` is threaded through explicitly. -/

mutual

def reverseJson (j : Json) (dm : List (String × String)) (rk : Option String) :
    List (String × String) :=
  match j with
  | .str s => dictInsert dm (keyStr rk) s
  | .num n => dictInsert dm (keyStr rk) (toString n)
  | .bool b => dictInsert dm (keyStr rk) (if b then "True" else "False")
  | .null => dictInsert dm (keyStr rk) "None"
  | .arr es => reverseJsonList es dm rk
  | .obj fs => reverseJsonFields fs dm

def reverseJsonList (es : JsonList) (dm : List (String × String)) (rk : Option String) :
    List (String × String) :=
  match es with
  | .nil => dm
  | .cons e t => reverseJsonList t (reverseJson e dm rk) rk

def reverseJsonFields (fs : JsonFields) (dm : List (String × String)) :
    List (String × String) :=
  match fs with
  | .nil => dm
  | .cons k v t => reverseJsonFields t (reverseJson v dm (some k))

end

/-- `JsonDataFile._break_down_json_data`: flatten a parsed document into the
flat key-to-value dict, starting from an empty accumulator and no key
context. -/
def flatten (j : Json) : List (String × String) := reverseJson j [] none

/-! ## Reference recursive descent (spec side)

`leaves j rk` lists, in visit order, the `(key context, stringified value)`
pairs of the scalar leaves of `j`, exactly as the specification describes
the descent: an object node recurses into each value carrying that pair's
key, a list node carries the parent's key context forward unchanged, a
scalar leaf contributes one record under the current key context. -/

mutual

def leaves (j : Json) (rk : Option String) : List (String × String) :=
  match j with
  | .str s => [(keyStr rk, s)]
  | .num n => [(keyStr rk, toString n)]
  | .bool b => [(keyStr rk, if b then "True" else "False")]
  | .null => [(keyStr rk, "None")]
  | .arr es => leavesList es rk
  | .obj fs => leavesFields fs

def leavesList (es : JsonList) (rk : Option String) : List (String × String) :=
  match es with
  | .nil => []
  | .cons e t => leaves e rk ++ leavesList t rk

def leavesFields (fs : JsonFields) : List (String × String) :=
  match fs with
  | .nil => []
  | .cons k v t => leaves v (some k) ++ leavesFields t

end

/-- Value of the last pair carrying key `k` in a visit-ordered leaf list
(the later-visited leaf wins). -/
def lastVal (l : List (String × String)) (k : String) : Option String :=
  pyLookup l.reverse k

theorem lastVal_append (l₁ l₂ : List (String × String)) (k : String) :
    lastVal (l₁ ++ l₂) k
      = if (lastVal l₂ k).isSome then lastVal l₂ k else lastVal l₁ k := by
  unfold lastVal
  rw [List.reverse_append, pyLookup_append]

theorem lastVal_single (a v k : String) :
    lastVal [(a, v)] k = if k = a then some v else none := by
  unfold lastVal
  simp only [List.reverse_singleton, pyLookup]
  by_cases h : a = k
  · rw [if_pos h, if_pos h.symm]
  · rw [if_neg h, if_neg (fun hk => h hk.symm)]

mutual

theorem reverseJson_lookup (j : Json) (dm : List (String × String))
    (rk : Option String) (k : String) :
    pyLookup (reverseJson j dm rk) k
      = if (lastVal (leaves j rk) k).isSome then lastVal (leaves j rk) k
        else pyLookup dm k := by
  cases j with
  | str s =>
      rw [reverseJson, leaves, pyLookup_dictInsert, lastVal_single]
      by_cases h : k = keyStr rk <;> simp [h]
  | num n =>
      rw [reverseJson, leaves, pyLookup_dictInsert, lastVal_single]
      by_cases h : k = keyStr rk <;> simp [h]
  | bool b =>
      rw [reverseJson, leaves, pyLookup_dictInsert, lastVal_single]
      by_cases h : k = keyStr rk <;> simp [h]
  | null =>
      rw [reverseJson, leaves, pyLookup_dictInsert, lastVal_single]
      by_cases h : k = keyStr rk <;> simp [h]
  | arr es => rw [reverseJson, leaves]; exact reverseJsonList_lookup es dm rk k
  | obj fs => rw [reverseJson, leaves]; exact reverseJsonFields_lookup fs dm k

theorem reverseJsonList_lookup (es : JsonList) (dm : List (String × String))
    (rk : Option String) (k : String) :
    pyLookup (reverseJsonList es dm rk) k
      = if (lastVal (leavesList es rk) k).isSome then lastVal (leavesList es rk) k
        else pyLookup dm k := by
  cases es with
  | nil => simp [reverseJsonList, leavesList, lastVal, pyLookup]
  | cons e t =>
      rw [reverseJsonList, leavesList, lastVal_append,
        reverseJsonList_lookup t (reverseJson e dm rk) rk k,
        reverseJson_lookup e dm rk k]
      by_cases h₂ : (lastVal (leavesList t rk) k).isSome
      · simp [h₂]
      · by_cases h₁ : (lastVal (leaves e rk) k).isSome <;> simp [h₁, h₂]

theorem reverseJsonFields_lookup (fs : JsonFields) (dm : List (String × String))
    (k : String) :
    pyLookup (reverseJsonFields fs dm) k
      = if (lastVal (leavesFields fs) k).isSome then lastVal (leavesFields fs) k
        else pyLookup dm k := by
  cases fs with
  | nil => simp [reverseJsonFields, leavesFields, lastVal, pyLookup]
  | cons key v t =>
      rw [reverseJsonFields, leavesFields, lastVal_append,
        reverseJsonFields_lookup t (reverseJson v dm (some key)) k,
        reverseJson_lookup v dm (some key) k]
      by_cases h₂ : (lastVal (leavesFields t) k).isSome
      · simp [h₂]
      · by_cases h₁ : (lastVal (leaves v (some key)) k).isSome <;> simp [h₁, h₂]

end

/-- Claim C1: for every parsed JSON document, the flat mapping produced by
`JsonDataFile._reverse_json` agrees with the reference recursive descent:
the value stored under any key is the stringified value of the
last-visited scalar leaf carrying that key context (per object insertion
order and list index order), i.e. later-visited leaves overwrite earlier
ones, and keys with no leaf are absent. -/
theorem C1_flatten_eq_last_visited_leaf (j : Json) (k : String) :
    pyLookup (flatten j) k = lastVal (leaves j none) k := by
  rw [flatten, reverseJson_lookup j [] none k]
  by_cases h : (lastVal (leaves j none) k).isSome
  · simp [h]
  · simp only [h, if_false, pyLookup]
    simp only [Option.not_isSome_iff_eq_none] at h
    exact h.symm

/-! ## json_model constants (src/confluence/models/json_model.py) -/

def JSON_ATTR_HOST_URL : String := "host_url"

def JSON_ATTR_USER : String := "user"

def JSON_ATTR_PASS : String := "pass"

def JSON_ATTR_SOURCE : String := "source"

def JSON_ATTR_SPACE_KEY : String := "space_key"

def JSON_ATTR_PARENT_PAGE_ID : String := "parent_page_id"

def JSON_ATTR_PAGE_TITLE : String := "page_title"

/-- `Config.MANDATORY_CONFIG_LIST` (src/app/config_utils.py), in its fixed
iteration order. -/
def MANDATORY_CONFIG_LIST : List String :=
  [JSON_ATTR_HOST_URL, JSON_ATTR_USER, JSON_ATTR_PASS, JSON_ATTR_SOURCE,
   JSON_ATTR_SPACE_KEY, JSON_ATTR_PARENT_PAGE_ID, JSON_ATTR_PAGE_TITLE]

/-- `JsonDataFile.has_json_attribute`: membership test on the keys of the
flat dict (`json_attribute in self._json_model_dict.keys()`). -/
def has_json_attribute (flat : List (String × String)) (k : String) : Bool :=
  (pyLookup flat k).isSome

/-! ## The dynamic-attribute surface of class JsonDataFile

`_load_json_content` ends with
`for json_key, json_value in self._json_model_dict.items(): setattr(self, json_key, json_value)`
and `get_value_from_json_ref` reads back through `hasattr`/`getattr`.
Both therefore interact with the attributes the instance already has:

* the read-only properties `file_name` and `json_model_dict` are data
  descriptors without a setter, so `setattr` on one of these names raises
  (and `getattr` returns the property value, never a configured value);
* a successful `setattr` on any other member name shadows or overwrites
  that member with the configured string.  Of those overwrites, exactly
  two are read again on the load path: `_validate_mandatory_configuration`
  calls `self._json_data_obj.has_json_attribute(...)` — a string there is
  not callable (`TypeError`) — and `has_json_attribute` itself reads
  `self._json_model_dict.keys()` — a string there has no `keys`
  (`AttributeError`).  Both corruptions are modelled explicitly in
  `validateMandatoryConfiguration` below.  The remaining members
  (`get_value_from_json_ref`, `_file_name`, `_break_down_json_data`,
  `_reverse_json`, `_load_json_content`) are not consulted again during
  load, so overwriting them does not alter the load outcome;
* assignment to Python's inherited special names (`__class__`,
  `__dict__`, ...) can also fail, in name-specific ways that the model
  does not enumerate: every such name starts with a double underscore, and
  the load-pipeline theorems exclude double-underscore flat keys by
  hypothesis;
* for `hasattr`/`getattr` (used only by `get_value_from_json_ref`), the
  attribute names that exist independently of the configuration are the
  class members listed in `jsonDataFileMemberNames` and the inherited
  special `__...__` attributes.  The model treats a double-underscore
  name as such an inherited attribute; this is again an approximation
  (`__not_a_member__` is no attribute), so no theorem asserts anything
  about double-underscore keys — a single-underscore non-member such as
  `_foo` is, faithfully, no attribute at all. -/

def jsonDataFilePropertyNames : List String := ["file_name", "json_model_dict"]

/-- Every member defined on a `JsonDataFile` instance or its class (the
two properties, the two public methods, the two instance attributes set in
the constructor, and the three private methods). -/
def jsonDataFileMemberNames : List String :=
  ["file_name", "json_model_dict", "has_json_attribute", "get_value_from_json_ref",
   "_file_name", "_json_model_dict", "_break_down_json_data", "_reverse_json",
   "_load_json_content"]

/-- Python `s.startswith(p)` on the character-list view. -/
def pyStartswith (s p : String) : Bool := p.toList.isPrefixOf s.toList

/-- Names for which `hasattr(self, name)` is true on a `JsonDataFile`
instance independently of the loaded configuration: the class members, and
the inherited `__...__` special attributes (approximated by their
double-underscore prefix; theorems never quantify over double-underscore
keys, see the section comment). -/
def isObjectAttrName (k : String) : Bool :=
  decide (k ∈ jsonDataFileMemberNames) || pyStartswith k "__"

/-- Failure modes of `Config(json_file)` after the file has been read and
parsed: the `setattr` loop hitting a settable-free property; validation
calling a `has_json_attribute` member that the `setattr` loop overwrote
with a configured string (`TypeError: 'str' object is not callable`);
`has_json_attribute` reading a `_json_model_dict` member overwritten with
a configured string (`AttributeError: 'str' object has no attribute
'keys'`); or `_validate_mandatory_configuration` raising on the first
absent mandatory attribute. -/
inductive LoadError where
  | attributeSetFailed (key : String)
  | typeErrorStrNotCallable
  | attributeErrorStrHasNoKeys
  | missingMandatoryField (key : String)
  deriving DecidableEq

deriving instance DecidableEq for Except

/-- The `setattr` loop at the end of `JsonDataFile._load_json_content`: it
walks the flat dict in order and raises at the first key that names a
property of the class (a data descriptor without a setter).  Successful
assignments overwrite members; the two overwrites the load path reads
again are modelled where they are read, in
`validateMandatoryConfiguration`.  (Assignment failures on `__...__`
special names are outside the modelled domain, see the section comment.) -/
def jsonDataFileSetAttrs (flat : List (String × String)) : Except LoadError Unit :=
  match flat.find? (fun p => decide (p.1 ∈ jsonDataFilePropertyNames)) with
  | some p => .error (.attributeSetFailed p.1)
  | none => .ok ()

/-- `Config._validate_mandatory_configuration`: its first loop iteration
calls `self._json_data_obj.has_json_attribute(...)`, which raises
`TypeError` if the `setattr` loop replaced that method with a configured
string, and `AttributeError` if it replaced `self._json_model_dict` (the
dict the method reads) with one; otherwise the loop walks the mandatory
list in its fixed order and raises at the first attribute the flat dict
lacks. -/
def validateMandatoryConfiguration (flat : List (String × String)) : Except LoadError Unit :=
  if (pyLookup flat "has_json_attribute").isSome then .error .typeErrorStrNotCallable
  else if (pyLookup flat "_json_model_dict").isSome then .error .attributeErrorStrHasNoKeys
  else
    match MANDATORY_CONFIG_LIST.find? (fun k => !(has_json_attribute flat k)) with
    | some k => .error (.missingMandatoryField k)
    | none => .ok ()

/-- Python `s.startswith('$')` as used by `_validate_template_variables`:
the first character is the sigil. -/
def startsWithDollar (s : String) : Bool :=
  match s.toList with
  | [] => false
  | c :: _ => c = '$'

/-- `Config._validate_template_variables`: scan the flat dict in order and
keep the bindings whose key starts with the sigil. -/
def validateTemplateVariables (flat : List (String × String)) : List (String × String) :=
  flat.filter (fun p => startsWithDollar p.1)

/-- The state a successfully constructed `Config` exposes. -/
structure ConfigState where
  flat : List (String × String)
  templateVariables : List (String × String)
  deriving DecidableEq

/-- `Config(json_file)` on an already-parsed document: flatten, run the
`setattr` loop, validate the mandatory attributes, collect the template
variables. -/
def configLoad (doc : Json) : Except LoadError ConfigState :=
  match jsonDataFileSetAttrs (flatten doc) with
  | .error e => .error e
  | .ok _ =>
      match validateMandatoryConfiguration (flatten doc) with
      | .error e => .error e
      | .ok _ => .ok ⟨flatten doc, validateTemplateVariables (flatten doc)⟩

/-- Does `Config(json_file)` fail with the missing-mandatory-attribute
error (`MissingMandatoryField` in the specification's taxonomy)? -/
def failsWithMissingMandatory (r : Except LoadError ConfigState) : Bool :=
  match r with
  | .error (.missingMandatoryField _) => true
  | _ => false

/-- Result of `JsonDataFile.get_value_from_json_ref` seen through the
`hasattr`/`getattr` pair: a configured value, some other attribute of the
object, or the `AttributeError` raised when no attribute exists
(`UnknownKey` in the specification's taxonomy).  Properties are data
descriptors, so they win over instance attributes; instance attributes
(the flat keys set by the `setattr` loop) win over plain class members. -/
inductive RefLookup where
  | configValue (v : String)
  | objectMember (name : String)
  | attributeNotFound (name : String)
  deriving DecidableEq

def get_value_from_json_ref (flat : List (String × String)) (k : String) : RefLookup :=
  if k ∈ jsonDataFilePropertyNames then .objectMember k
  else
    match pyLookup flat k with
    | some v => .configValue v
    | none => if isObjectAttrName k then .objectMember k else .attributeNotFound k

/-! ## Helper lemmas on the load pipeline -/

theorem pyLookup_some_mem (m : List (String × String)) (k v : String)
    (h : pyLookup m k = some v) : (k, v) ∈ m := by
  induction m with
  | nil => simp [pyLookup] at h
  | cons p t ih =>
      cases p with
      | mk x y =>
          by_cases hx : x = k
          · subst hx
            rw [pyLookup, if_pos rfl] at h
            cases h
            exact List.mem_cons_self _ _
          · rw [pyLookup, if_neg hx] at h
            exact List.mem_cons_of_mem _ (ih h)

theorem takeWhile_cons_pos {α : Type} (p : α → Bool) (x : α) (t : List α)
    (h : p x = true) : (x :: t).takeWhile p = x :: t.takeWhile p := by
  simp [List.takeWhile_cons, h]

theorem find?_eq_some_first (l : List String) (p : String → Bool) (k : String)
    (hmem : k ∈ l) (hk : p k = true)
    (hbef : ∀ m ∈ l.takeWhile (fun m => m != k), p m = false) :
    l.find? p = some k := by
  induction l with
  | nil => cases hmem
  | cons x t ih =>
      by_cases hx : x = k
      · subst hx
        exact List.find?_cons_of_pos t hk
      · have hxk : ((fun m => m != k) x) = true := by
          simp only [bne_iff_ne, ne_eq, decide_eq_true_eq]
          exact hx
        rw [takeWhile_cons_pos _ x t hxk] at hbef
        have hpx : p x = false := hbef x (List.mem_cons_self _ _)
        rw [List.find?_cons_of_neg t (by simp [hpx])]
        apply ih
        · rcases List.mem_cons.mp hmem with h | h
          · exact absurd h.symm hx
          · exact h
        · intro m hm
          exact hbef m (List.mem_cons_of_mem _ hm)

theorem configLoad_ok_flat (doc : Json) (st : ConfigState)
    (h : configLoad doc = .ok st) :
    st.flat = flatten doc
      ∧ st.templateVariables = validateTemplateVariables (flatten doc)
      ∧ jsonDataFileSetAttrs (flatten doc) = .ok ()
      ∧ validateMandatoryConfiguration (flatten doc) = .ok () := by
  unfold configLoad at h
  cases hs : jsonDataFileSetAttrs (flatten doc) with
  | error e => rw [hs] at h; cases h
  | ok u =>
      cases u
      rw [hs] at h
      cases hv : validateMandatoryConfiguration (flatten doc) with
      | error e => rw [hv] at h; cases h
      | ok u' =>
          cases u'
          rw [hv] at h
          cases h
          exact ⟨rfl, rfl, rfl, rfl⟩

theorem setAttrs_ok_no_property (flat : List (String × String))
    (h : jsonDataFileSetAttrs flat = .ok ()) :
    ∀ p ∈ flat, p.1 ∉ jsonDataFilePropertyNames := by
  unfold jsonDataFileSetAttrs at h
  cases hf : flat.find? (fun p => decide (p.1 ∈ jsonDataFilePropertyNames)) with
  | some q => rw [hf] at h; cases h
  | none =>
      intro p hp
      have := List.find?_eq_none.mp hf p hp
      simpa using this

theorem find?_eq_some_split {α : Type} (l : List α) (p : α → Bool) (k : α)
    (h : l.find? p = some k) :
    ∃ l₁ l₂, l = l₁ ++ k :: l₂ ∧ ∀ m ∈ l₁, p m = false := by
  induction l with
  | nil => cases h
  | cons x t ih =>
      cases hx : p x with
      | true =>
          rw [List.find?_cons_of_pos t hx] at h
          cases h
          exact ⟨[], t, rfl, by intro m hm; cases hm⟩
      | false =>
          rw [List.find?_cons_of_neg t (by simp [hx])] at h
          obtain ⟨l₁, l₂, hsplit, hall⟩ := ih h
          refine ⟨x :: l₁, l₂, by rw [hsplit, List.cons_append], ?_⟩
          intro m hm
          rcases List.mem_cons.mp hm with hmx | hm'
          · rw [hmx]; exact hx
          · exact hall m hm'

theorem pyLookup_eq_none_of_forall (m : List (String × String)) (k : String)
    (h : ∀ p ∈ m, p.1 ≠ k) : pyLookup m k = none := by
  induction m with
  | nil => rfl
  | cons p t ih =>
      cases p with
      | mk x y =>
          rw [pyLookup, if_neg (h (x, y) (List.mem_cons_self _ _))]
          exact ih (fun q hq => h q (List.mem_cons_of_mem _ hq))

/-- Claims C2 and C10 are stated over documents whose flattened keys do
not collide with the attribute machinery of `JsonDataFile`: a flat key
naming one of the class's properties makes the `setattr` loop raise
before validation runs (see `C2_counterexample`), a flat key
`has_json_attribute` or `_json_model_dict` makes the first validation
step raise `TypeError`/`AttributeError` on the overwritten member, and a
double-underscore key may make the assignment itself fail in a
name-specific way the model does not enumerate.  Every other flattened
key is a fresh attribute (or overwrites a member the load path never
reads again) and leaves the load outcome unchanged. -/
def flatKeysPlain (doc : Json) : Prop :=
  ∀ p ∈ flatten doc, p.1 ∉ jsonDataFilePropertyNames
    ∧ p.1 ≠ "has_json_attribute" ∧ p.1 ≠ "_json_model_dict"
    ∧ pyStartswith p.1 "__" = false

instance (doc : Json) : Decidable (flatKeysPlain doc) := by
  unfold flatKeysPlain
  infer_instance

theorem setAttrs_ok_of_plain (doc : Json) (hclean : flatKeysPlain doc) :
    jsonDataFileSetAttrs (flatten doc) = .ok () := by
  unfold jsonDataFileSetAttrs
  have hnone : (flatten doc).find? (fun p => decide (p.1 ∈ jsonDataFilePropertyNames)) = none := by
    apply List.find?_eq_none.mpr
    intro p hp
    simp only [decide_eq_true_eq]
    exact (hclean p hp).1
  rw [hnone]

theorem validate_no_corruption_of_plain (doc : Json) (hclean : flatKeysPlain doc) :
    pyLookup (flatten doc) "has_json_attribute" = none
      ∧ pyLookup (flatten doc) "_json_model_dict" = none :=
  ⟨pyLookup_eq_none_of_forall _ _ (fun p hp => (hclean p hp).2.1),
   pyLookup_eq_none_of_forall _ _ (fun p hp => (hclean p hp).2.2.1)⟩

/-- Claim C2 (amended): for every configuration document none of whose
flattened keys collides with the attribute machinery of `JsonDataFile`
(the property names `file_name`/`json_model_dict`, the member names
`has_json_attribute`/`_json_model_dict` that validation reads after the
`setattr` loop may have overwritten them, and double-underscore special
names), load fails with `MissingMandatoryField` iff at least one of the
seven mandatory keys is absent from the flattened document, and the error
names the first missing field in the fixed iteration order of
`MANDATORY_CONFIG_LIST`. -/
theorem C2_mandatory_validation (doc : Json) (hclean : flatKeysPlain doc) :
    (failsWithMissingMandatory (configLoad doc) = true
        ↔ ∃ m ∈ MANDATORY_CONFIG_LIST, has_json_attribute (flatten doc) m = false)
    ∧ (∀ k, configLoad doc = .error (.missingMandatoryField k) →
        ∃ l₁ l₂, MANDATORY_CONFIG_LIST = l₁ ++ k :: l₂
          ∧ (∀ m ∈ l₁, has_json_attribute (flatten doc) m = true)
          ∧ has_json_attribute (flatten doc) k = false) := by
  have hset : jsonDataFileSetAttrs (flatten doc) = .ok () := setAttrs_ok_of_plain doc hclean
  obtain ⟨hhja, hjmd⟩ := validate_no_corruption_of_plain doc hclean
  unfold configLoad
  rw [hset]
  unfold validateMandatoryConfiguration
  rw [if_neg (by rw [hhja]; simp), if_neg (by rw [hjmd]; simp)]
  cases hfind : MANDATORY_CONFIG_LIST.find? (fun k => !(has_json_attribute (flatten doc) k)) with
  | some kmiss =>
      constructor
      · constructor
        · intro _
          refine ⟨kmiss, List.mem_of_find?_eq_some hfind, ?_⟩
          have := List.find?_some hfind
          simpa using this
        · intro _; rfl
      · intro k hk
        have hkk : kmiss = k := by
          simp only [Except.error.injEq, LoadError.missingMandatoryField.injEq] at hk
          exact hk
        subst hkk
        obtain ⟨l₁, l₂, hsplit, hall⟩ := find?_eq_some_split _ _ _ hfind
        refine ⟨l₁, l₂, hsplit, ?_, ?_⟩
        · intro m hm
          have := hall m hm
          simpa using this
        · have := List.find?_some hfind
          simpa using this
  | none =>
      constructor
      · constructor
        · intro hfalse; cases hfalse
        · intro ⟨m, hm, hmiss⟩
          have := List.find?_eq_none.mp hfind m hm
          rw [hmiss] at this
          simp at this
      · intro k hk; cases hk

/-- A configuration document whose only key is the name of the
`JsonDataFile.file_name` property. -/
def configDocFileNameKey : Json :=
  Json.obj (JsonFields.cons "file_name" (Json.str "x") JsonFields.nil)

/-- Claim C2, counterexample: the document consisting of the single pair
`"file_name": "x"` parses as JSON and lacks every mandatory key, yet load
does not fail with `MissingMandatoryField`: the `setattr` loop raises
first, because `file_name` is a read-only property of `JsonDataFile`, so
the iff of the claim fails at this input. -/
theorem C2_counterexample :
    failsWithMissingMandatory (configLoad configDocFileNameKey) = false
    ∧ configLoad configDocFileNameKey = .error (.attributeSetFailed "file_name")
    ∧ has_json_attribute (flatten configDocFileNameKey) JSON_ATTR_USER = false := by
  refine ⟨by decide, by decide, by decide⟩

/-- A configuration document that lacks the mandatory `pass` key (and
the four keys after it). -/
def configDocMissingPass : Json :=
  Json.obj (JsonFields.cons "host_url" (Json.str "http://h:8090")
    (JsonFields.cons "user" (Json.str "u") JsonFields.nil))

/-- Witness for `C2_mandatory_validation` at a concrete document. -/
theorem C2_mandatory_validation_witness :
    failsWithMissingMandatory (configLoad configDocMissingPass) = true :=
  (C2_mandatory_validation configDocMissingPass (by decide)).1.mpr
    ⟨JSON_ATTR_PASS, by decide, by decide⟩

/-- A valid configuration document (modelled on the repository's
`config_valid.json` test resource). -/
def configDocValid : Json :=
  Json.obj (JsonFields.cons "host_url" (Json.str "http://h:8090")
    (JsonFields.cons "user" (Json.str "my_user")
      (JsonFields.cons "pass" (Json.str "my_pass")
        (JsonFields.cons "source" (Json.str "http://h:8090/display/space/page")
          (JsonFields.cons "space_key" (Json.str "SPC")
            (JsonFields.cons "parent_page_id" (Json.str "102956449")
              (JsonFields.cons "page_title" (Json.str "TEMPLATE_TEST_PAGE")
                (JsonFields.cons "$MyVariable" (Json.str "var") JsonFields.nil))))))))

/-- The flat dict `configDocValid` flattens to. -/
def flatValid : List (String × String) :=
  [("host_url", "http://h:8090"), ("user", "my_user"), ("pass", "my_pass"),
   ("source", "http://h:8090/display/space/page"), ("space_key", "SPC"),
   ("parent_page_id", "102956449"), ("page_title", "TEMPLATE_TEST_PAGE"),
   ("$MyVariable", "var")]

/-- The `ConfigState` produced by loading `configDocValid`. -/
def stValid : ConfigState := ⟨flatValid, [("$MyVariable", "var")]⟩

/-- Claim C6, counterexample: on a successfully loaded configuration the
generic lookup at the key `"file_name"` — a key absent from the flat
mapping — does not fail with the unknown-key `AttributeError`: it finds
the `file_name` property of the `JsonDataFile` object through `hasattr`
and returns that attribute instead. -/
theorem C6_counterexample :
    configLoad configDocValid = .ok stValid
    ∧ pyLookup stValid.flat "file_name" = none
    ∧ get_value_from_json_ref stValid.flat "file_name" = .objectMember "file_name"
    ∧ get_value_from_json_ref stValid.flat "file_name" ≠ .attributeNotFound "file_name" := by
  refine ⟨by decide, by decide, by decide, by decide⟩

theorem property_mem_member (k : String) (hp : k ∈ jsonDataFilePropertyNames) :
    k ∈ jsonDataFileMemberNames := by
  have hp' : k = "file_name" ∨ k = "json_model_dict" := by
    simpa [jsonDataFilePropertyNames] using hp
  rcases hp' with rfl | rfl <;> decide

/-- Claim C6 (amended): on a loaded configuration, the generic lookup
returns the flat-mapping value whenever the key is present in the flat
mapping, and fails with the unknown-key `AttributeError` whenever the key
is absent from the flat mapping and is neither a member name of the
`JsonDataFile` object (its properties, methods, and private members, for
which the lookup instead returns that object attribute) nor an inherited
double-underscore special attribute name (for which the model, and
therefore this theorem, makes no assertion). -/
theorem C6_ref_lookup (doc : Json) (st : ConfigState)
    (h : configLoad doc = .ok st) (k : String) :
    (∀ v, pyLookup st.flat k = some v →
        get_value_from_json_ref st.flat k = .configValue v)
    ∧ (pyLookup st.flat k = none → k ∉ jsonDataFileMemberNames →
        pyStartswith k "__" = false →
        get_value_from_json_ref st.flat k = .attributeNotFound k)
    ∧ (pyLookup st.flat k = none → k ∈ jsonDataFileMemberNames →
        get_value_from_json_ref st.flat k = .objectMember k) := by
  obtain ⟨hflat, _htv, hset, _hval⟩ := configLoad_ok_flat doc st h
  refine ⟨?_, ?_, ?_⟩
  · intro v hv
    have hmem : (k, v) ∈ st.flat := pyLookup_some_mem _ _ _ hv
    have hnoprop : k ∉ jsonDataFilePropertyNames := by
      have := setAttrs_ok_no_property (flatten doc) hset (k, v) (by rw [hflat] at hmem; exact hmem)
      exact this
    unfold get_value_from_json_ref
    rw [if_neg hnoprop, hv]
  · intro hnone hmem hdu
    have hnoprop : k ∉ jsonDataFilePropertyNames := fun hp => hmem (property_mem_member k hp)
    have hattr : isObjectAttrName k = false := by
      unfold isObjectAttrName
      rw [hdu]
      simp [hmem]
    unfold get_value_from_json_ref
    rw [if_neg hnoprop, hnone, if_neg (by rw [hattr]; exact Bool.false_ne_true)]
  · intro hnone hmem
    unfold get_value_from_json_ref
    by_cases hprop : k ∈ jsonDataFilePropertyNames
    · rw [if_pos hprop]
    · have hattr : isObjectAttrName k = true := by
        unfold isObjectAttrName
        simp [hmem]
      rw [if_neg hprop, hnone, if_pos hattr]

/-- Witness for `C6_ref_lookup` at a loaded configuration: a configured
key, an unknown key, and an underscore-prefixed non-member (for which
`hasattr` is false, so the unknown-key error is raised). -/
theorem C6_ref_lookup_witness :
    get_value_from_json_ref stValid.flat "host_url" = .configValue "http://h:8090"
    ∧ get_value_from_json_ref stValid.flat "no_such_key" = .attributeNotFound "no_such_key"
    ∧ get_value_from_json_ref stValid.flat "_foo" = .attributeNotFound "_foo" :=
  ⟨(C6_ref_lookup configDocValid stValid (by decide) "host_url").1 "http://h:8090" (by decide),
   (C6_ref_lookup configDocValid stValid (by decide) "no_such_key").2.1
     (by decide) (by decide) (by decide),
   (C6_ref_lookup configDocValid stValid (by decide) "_foo").2.1
     (by decide) (by decide) (by decide)⟩

theorem startsWithDollar_iff (s : String) :
    startsWithDollar s = true ↔ s.toList.head? = some '$' := by
  unfold startsWithDollar
  cases h : s.toList with
  | nil => simp
  | cons c t => simp [List.head?]

/-- Claim C7: on a loaded configuration, the template-variable mapping is
exactly the sub-mapping of the flat dict on keys whose first character is
the sigil `$`, kept in flat-dict order (it is a sublist of the flat dict,
and a pair belongs to it iff it belongs to the flat dict with a `$`-headed
key). -/
theorem C7_template_variables (doc : Json) (st : ConfigState)
    (h : configLoad doc = .ok st) :
    st.templateVariables.Sublist st.flat
    ∧ ∀ k v, ((k, v) ∈ st.templateVariables
        ↔ ((k, v) ∈ st.flat ∧ k.toList.head? = some '$')) := by
  obtain ⟨hflat, htv, _hset, _hval⟩ := configLoad_ok_flat doc st h
  rw [hflat, htv]
  unfold validateTemplateVariables
  constructor
  · exact List.filter_sublist _
  · intro k v
    rw [List.mem_filter]
    constructor
    · rintro ⟨hm, hd⟩
      exact ⟨hm, (startsWithDollar_iff k).mp hd⟩
    · rintro ⟨hm, hd⟩
      exact ⟨hm, (startsWithDollar_iff k).mpr hd⟩

/-- Witness for `C7_template_variables` at a loaded configuration. -/
theorem C7_template_variables_witness :
    stValid.templateVariables.Sublist stValid.flat
    ∧ ("$MyVariable", "var") ∈ stValid.templateVariables :=
  ⟨(C7_template_variables configDocValid stValid (by decide)).1,
   ((C7_template_variables configDocValid stValid (by decide)).2 "$MyVariable" "var").mpr
     ⟨by decide, by decide⟩⟩

theorem reverseJsonFields_append : ∀ (a b : JsonFields) (dm : List (String × String)),
    reverseJsonFields (a.append b) dm = reverseJsonFields b (reverseJsonFields a dm)
  | .nil, _, _ => rfl
  | .cons k v t, b, dm => by
      rw [JsonFields.append, reverseJsonFields, reverseJsonFields]
      exact reverseJsonFields_append t b (reverseJson v dm (some k))

/-- The mandatory keys strictly before `k` in the fixed iteration order. -/
def mandatoryFieldsBefore (k : String) : List String :=
  MANDATORY_CONFIG_LIST.takeWhile (fun m => m != k)

/-- Claim C10, counterexample: in the document consisting of the single
pair `"user": []`, the mandatory key `user`'s value is an empty list, but
load does not fail with `MissingMandatoryField` *for that key*: the
validation loop reaches `host_url` first and names it, and
`"host_url" ≠ "user"`. -/
theorem C10_counterexample :
    flatten (Json.obj (JsonFields.cons "user" (Json.arr JsonList.nil) JsonFields.nil)) = []
    ∧ configLoad (Json.obj (JsonFields.cons "user" (Json.arr JsonList.nil) JsonFields.nil))
        = .error (.missingMandatoryField "host_url")
    ∧ ("host_url" : String) ≠ "user" := by
  refine ⟨by decide, by decide, by decide⟩

/-- Claim C10 (amended): flattening records no entry for a mandatory key
whose value is an empty list or empty object (empty containers contribute
no leaves): the flat dict is the one of the document without that field,
and — when the key has no other leaf, every mandatory key before it in the
fixed order is present, and no flat key collides with the attribute
machinery of `JsonDataFile` — load fails with `MissingMandatoryField`
naming exactly that key, even though the key name appears in the file. -/
theorem C10_empty_container_missing (pre post : JsonFields) (k : String) (e : Json)
    (hempty : e = Json.arr JsonList.nil ∨ e = Json.obj JsonFields.nil)
    (hk : k ∈ MANDATORY_CONFIG_LIST)
    (hclean : flatKeysPlain (Json.obj (pre.append (JsonFields.cons k e post))))
    (habsent : has_json_attribute (flatten (Json.obj (pre.append post))) k = false)
    (hbefore : ∀ m ∈ mandatoryFieldsBefore k,
        has_json_attribute (flatten (Json.obj (pre.append post))) m = true) :
    flatten (Json.obj (pre.append (JsonFields.cons k e post)))
        = flatten (Json.obj (pre.append post))
    ∧ configLoad (Json.obj (pre.append (JsonFields.cons k e post)))
        = .error (.missingMandatoryField k) := by
  have hdrop : ∀ dm : List (String × String), reverseJson e dm (some k) = dm := by
    intro dm
    rcases hempty with he | he <;> rw [he] <;> rfl
  have heq : flatten (Json.obj (pre.append (JsonFields.cons k e post)))
      = flatten (Json.obj (pre.append post)) := by
    show reverseJson (Json.obj (pre.append (JsonFields.cons k e post))) [] none
        = reverseJson (Json.obj (pre.append post)) [] none
    rw [reverseJson, reverseJson, reverseJsonFields_append, reverseJsonFields_append,
      reverseJsonFields, hdrop]
  refine ⟨heq, ?_⟩
  have hset := setAttrs_ok_of_plain _ hclean
  obtain ⟨hhja, hjmd⟩ := validate_no_corruption_of_plain _ hclean
  rw [heq] at hhja hjmd
  unfold configLoad
  rw [hset]
  unfold validateMandatoryConfiguration
  rw [heq]
  rw [if_neg (by rw [hhja]; simp), if_neg (by rw [hjmd]; simp)]
  have hfind : MANDATORY_CONFIG_LIST.find?
      (fun m => !(has_json_attribute (flatten (Json.obj (pre.append post))) m)) = some k := by
    apply find?_eq_some_first _ _ _ hk
    · rw [habsent]; rfl
    · intro m hm
      rw [hbefore m hm]; rfl
  rw [hfind]

/-- The three mandatory fields before `source`, configured normally. -/
def preFieldsC10 : JsonFields :=
  JsonFields.cons "host_url" (Json.str "h")
    (JsonFields.cons "user" (Json.str "u")
      (JsonFields.cons "pass" (Json.str "p") JsonFields.nil))

/-- The three mandatory fields after `source`, configured normally. -/
def postFieldsC10 : JsonFields :=
  JsonFields.cons "space_key" (Json.str "S")
    (JsonFields.cons "parent_page_id" (Json.str "1")
      (JsonFields.cons "page_title" (Json.str "T") JsonFields.nil))

/-- Witness for `C10_empty_container_missing`: a document whose `source`
key maps to the empty list fails validation naming `source`. -/
theorem C10_empty_container_missing_witness :
    configLoad (Json.obj (preFieldsC10.append
        (JsonFields.cons "source" (Json.arr JsonList.nil) postFieldsC10)))
      = .error (.missingMandatoryField "source") :=
  (C10_empty_container_missing preFieldsC10 postFieldsC10 "source" (Json.arr JsonList.nil)
    (Or.inl rfl) (by decide) (by decide) (by decide) (by decide)).2

/-! ## Credential indirection (`PageManager._load_config_file`)

The source checks `PageManager.ENV_PREFIX in value.lower().strip()` (the
sentinel is `ENV_PREFIX = "env."`), and on a hit computes the variable
name as `value.strip().replace(PageManager.ENV_PREFIX, "")` — Python's
`str.replace`, which removes every non-overlapping occurrence of the
sentinel, scanning left to right — then reads
`os.environ.get(name)`, raising when the variable is unset.  Otherwise the
raw value passes through unchanged. -/

/-- The characters of `PageManager.ENV_PREFIX` (`"env."`). -/
def sentinelChars : List Char := ['e', 'n', 'v', '.']

/-- Python `s.strip()` (both-ends whitespace trim) on the character-list
view. -/
def pyStripL (cs : List Char) : List Char :=
  ((cs.dropWhile Char.isWhitespace).reverse.dropWhile Char.isWhitespace).reverse

/-- Python `pat in s` (substring containment): `pat` is a prefix of some
suffix of `s`. -/
def hasSubstrList : List Char → List Char → Bool
  | [], pat => pat.isEmpty
  | c :: t, pat => pat.isPrefixOf (c :: t) || hasSubstrList t pat

/-- Python `s.replace("env.", "")`: scan left to right, dropping each
non-overlapping occurrence of the sentinel `env.` and keeping every other
character. -/
def replaceDropSentinel : List Char → List Char
  | 'e' :: 'n' :: 'v' :: '.' :: t => replaceDropSentinel t
  | c :: t => c :: replaceDropSentinel t
  | [] => []

/-- The failure mode of credential resolution: the referenced environment
variable is unset (`MissingEnvironmentVariable` in the specification's
taxonomy). -/
inductive CredentialError where
  | missingEnvironmentVariable (varName : String)
  deriving DecidableEq

/-- `PageManager._load_config_file`, credential-resolution step for one of
the two credential values (`user` and `pass` are processed independently
by the same code shape), with the process environment passed explicitly. -/
def resolveCredential (env : String → Option String) (v : String) :
    Except CredentialError String :=
  if hasSubstrList (pyStripL (v.toList.map Char.toLower)) sentinelChars then
    match env (String.mk (replaceDropSentinel (pyStripL v.toList))) with
    | some w => Except.ok w
    | none =>
        Except.error (CredentialError.missingEnvironmentVariable
          (String.mk (replaceDropSentinel (pyStripL v.toList))))
  else Except.ok v

/-- Removal of only the first sentinel occurrence, following the
specification's words ("strip the sentinel (first occurrence) from the
original-case, trimmed value"); compared against the source's
remove-all-occurrences behaviour in the C3 counterexample. -/
def stripFirstSentinel : List Char → List Char
  | 'e' :: 'n' :: 'v' :: '.' :: t => t
  | c :: t => c :: stripFirstSentinel t
  | [] => []

/-- Environment for the C3 counterexample: both the name the
specification's first-occurrence stripping would produce and the name the
source's remove-all stripping produces are set, to distinct values. -/
def envC3 : String → Option String := fun k =>
  if k = "env.FOO" then some "alice" else if k = "FOO" then some "bob" else none

/-- Claim C3, counterexample: on the value `"env.env.FOO"`, stripping the
first sentinel occurrence would give the variable name `"env.FOO"` (set to
`"alice"` here), but the source's `str.replace` removes every occurrence
and resolution reads variable `"FOO"` instead, yielding `"bob"`. -/
theorem C3_counterexample :
    resolveCredential envC3 "env.env.FOO" = Except.ok "bob"
    ∧ String.mk (stripFirstSentinel (pyStripL "env.env.FOO".toList)) = "env.FOO"
    ∧ envC3 "env.FOO" = some "alice"
    ∧ (Except.ok "bob" : Except CredentialError String) ≠ Except.ok "alice" := by
  refine ⟨by decide, by decide, by decide, by decide⟩

theorem replace_cons_of_not_first (c : Char) (t : List Char)
    (h : sentinelChars.isPrefixOf (c :: t) = false) :
    replaceDropSentinel (c :: t) = c :: replaceDropSentinel t := by
  rw [replaceDropSentinel.eq_def]
  split
  next t' heq =>
    exfalso
    rcases t with _ | ⟨c2, t2⟩
    · cases heq
    rcases t2 with _ | ⟨c3, t3⟩
    · cases heq
    rcases t3 with _ | ⟨c4, t4⟩
    · cases heq
    injection heq with h1 hrest
    injection hrest with h2 hrest2
    injection hrest2 with h3 hrest3
    injection hrest3 with h4 hrest4
    rw [h1, h2, h3, h4] at h
    simp [sentinelChars, List.isPrefixOf] at h
  next x xs heq =>
    injection heq with h1 h2
    rw [h1, h2]
  next heq => cases heq

theorem replace_id_of_no_substr (cs : List Char)
    (h : hasSubstrList cs sentinelChars = false) :
    replaceDropSentinel cs = cs := by
  induction cs with
  | nil => rfl
  | cons c t ih =>
      rw [hasSubstrList] at h
      rcases Bool.or_eq_false_iff.mp h with ⟨h1, h2⟩
      rw [replace_cons_of_not_first c t h1, ih h2]

theorem dropWhile_eq_self_of_all {α : Type} (p : α → Bool) (l : List α)
    (h : ∀ c ∈ l, p c = false) : l.dropWhile p = l := by
  cases l with
  | nil => rfl
  | cons c t =>
      rw [List.dropWhile_cons_of_neg]
      rw [h c (List.mem_cons_self _ _)]
      exact Bool.false_ne_true

theorem pyStripL_eq_self (l : List Char)
    (h : ∀ c ∈ l, c.isWhitespace = false) : pyStripL l = l := by
  unfold pyStripL
  rw [dropWhile_eq_self_of_all _ l h]
  rw [dropWhile_eq_self_of_all _ l.reverse (fun c hc => h c (List.mem_reverse.mp hc))]
  exact List.reverse_reverse l

theorem hasSubstr_sentinel_head (rest : List Char) :
    hasSubstrList ('e' :: 'n' :: 'v' :: '.' :: rest) sentinelChars = true := by
  rw [hasSubstrList]
  apply Bool.or_eq_true_iff.mpr
  left
  simp [sentinelChars, List.isPrefixOf]

/-- Python's left-to-right replace scan over `p ++ rest` emits all of `p`
unchanged and continues into `rest`, provided `p` contains no sentinel
occurrence and no occurrence straddles the boundary.  The straddle is
excluded by the three hypotheses: a boundary occurrence would need a
nonempty proper prefix of `env.` to end `p` with the matching remainder
(`nv.`, `v.` or `.`) starting `rest`. -/
theorem replaceDrop_append_clean (p rest : List Char)
    (hfree : hasSubstrList p sentinelChars = false)
    (h1 : List.isPrefixOf ['n', 'v', '.'] rest = false)
    (h2 : List.isPrefixOf ['v', '.'] rest = false)
    (h3 : List.isPrefixOf ['.'] rest = false) :
    replaceDropSentinel (p ++ rest) = p ++ replaceDropSentinel rest := by
  induction p with
  | nil => rfl
  | cons c t ih =>
      rw [hasSubstrList] at hfree
      rcases Bool.or_eq_false_iff.mp hfree with ⟨hp1, hp2⟩
      have hstep : sentinelChars.isPrefixOf (c :: (t ++ rest)) = false := by
        by_contra hcon
        rw [Bool.not_eq_false] at hcon
        simp only [sentinelChars, List.isPrefixOf, Bool.and_eq_true, beq_iff_eq] at hcon
        obtain ⟨hce, hcon1⟩ := hcon
        subst hce
        cases t with
        | nil =>
            rw [List.nil_append] at hcon1
            rw [h1] at hcon1
            exact absurd hcon1 Bool.false_ne_true
        | cons c2 t2 =>
            rw [List.cons_append] at hcon1
            simp only [List.isPrefixOf, Bool.and_eq_true, beq_iff_eq] at hcon1
            obtain ⟨hcn, hcon2⟩ := hcon1
            subst hcn
            cases t2 with
            | nil =>
                rw [List.nil_append] at hcon2
                rw [h2] at hcon2
                exact absurd hcon2 Bool.false_ne_true
            | cons c3 t3 =>
                rw [List.cons_append] at hcon2
                simp only [List.isPrefixOf, Bool.and_eq_true, beq_iff_eq] at hcon2
                obtain ⟨hcv, hcon3⟩ := hcon2
                subst hcv
                cases t3 with
                | nil =>
                    rw [List.nil_append] at hcon3
                    rw [h3] at hcon3
                    exact absurd hcon3 Bool.false_ne_true
                | cons c4 t4 =>
                    rw [List.cons_append] at hcon3
                    simp only [List.isPrefixOf, Bool.and_eq_true, beq_iff_eq] at hcon3
                    obtain ⟨hcd, _⟩ := hcon3
                    subst hcd
                    simp [sentinelChars, List.isPrefixOf] at hp1
      rw [List.cons_append, replace_cons_of_not_first c (t ++ rest) hstep, ih hp2,
        List.cons_append]

/-- The pieces joined with one sentinel copy between consecutive pieces:
`intercalateSentinel [p, q, r] = p ++ "env." ++ q ++ "env." ++ r`.  When
every piece is sentinel-free this enumerates exactly the occurrences the
left-to-right scan finds (no occurrence can straddle a boundary, since no
nonempty proper prefix of `env.` is followed by its matching remainder at
a piece boundary — the remainders start with `n`, `v` or `.` while every
boundary starts with `e`). -/
def intercalateSentinel : List (List Char) → List Char
  | [] => []
  | [p] => p
  | p :: rest => p ++ (sentinelChars ++ intercalateSentinel rest)

theorem mem_intercalateSentinel (pieces : List (List Char)) (c : Char)
    (hc : c ∈ intercalateSentinel pieces) :
    (∃ p ∈ pieces, c ∈ p) ∨ c ∈ sentinelChars := by
  induction pieces with
  | nil => cases hc
  | cons p rest ih =>
      cases rest with
      | nil => exact Or.inl ⟨p, List.mem_cons_self _ _, hc⟩
      | cons q rest2 =>
          rw [show intercalateSentinel (p :: q :: rest2)
              = p ++ (sentinelChars ++ intercalateSentinel (q :: rest2)) from rfl] at hc
          rcases List.mem_append.mp hc with h | h
          · exact Or.inl ⟨p, List.mem_cons_self _ _, h⟩
          · rcases List.mem_append.mp h with h' | h'
            · exact Or.inr h'
            · rcases ih h' with ⟨p', hp', hcp'⟩ | h''
              · exact Or.inl ⟨p', List.mem_cons_of_mem _ hp', hcp'⟩
              · exact Or.inr h''

theorem hasSubstr_infix_sentinel (xs ys : List Char) :
    hasSubstrList (xs ++ (sentinelChars ++ ys)) sentinelChars = true := by
  induction xs with
  | nil =>
      rw [List.nil_append]
      exact hasSubstr_sentinel_head ys
  | cons c t ih =>
      rw [List.cons_append, hasSubstrList, ih, Bool.or_true]

/-- `str.replace("env.", "")` removes every occurrence: on any value
decomposed into sentinel-free pieces joined by sentinel copies, the scan
deletes each joining copy and concatenates the pieces. -/
theorem replaceDrop_intercalate (pieces : List (List Char))
    (hfree : ∀ p ∈ pieces, hasSubstrList p sentinelChars = false) :
    replaceDropSentinel (intercalateSentinel pieces) = pieces.flatten := by
  induction pieces with
  | nil => rfl
  | cons p rest ih =>
      cases rest with
      | nil =>
          show replaceDropSentinel p = List.flatten [p]
          rw [replace_id_of_no_substr p (hfree p (List.mem_cons_self _ _))]
          simp [List.flatten]
      | cons q rest2 =>
          rw [show intercalateSentinel (p :: q :: rest2)
              = p ++ (sentinelChars ++ intercalateSentinel (q :: rest2)) from rfl]
          rw [replaceDrop_append_clean p (sentinelChars ++ intercalateSentinel (q :: rest2))
            (hfree p (List.mem_cons_self _ _)) rfl rfl rfl]
          rw [show replaceDropSentinel (sentinelChars ++ intercalateSentinel (q :: rest2))
              = replaceDropSentinel (intercalateSentinel (q :: rest2)) from rfl]
          rw [ih (fun x hx => hfree x (List.mem_cons_of_mem _ hx))]
          simp [List.flatten]

/-- Claim C3 (amended): credential resolution strips every non-overlapping
occurrence of the sentinel `env.` (scanning left to right,
case-sensitively) from the original-case, trimmed value, and uses the
remainder as the environment-variable name: for every decomposition of
the value into two or more sentinel-free, whitespace-free pieces joined
by single sentinel copies, the name looked up is the concatenation of
the pieces — not the value with only the first occurrence removed. -/
theorem C3_strip_all_occurrences (env : String → Option String)
    (pieces : List (List Char))
    (hlen : 2 ≤ pieces.length)
    (hfree : ∀ p ∈ pieces, hasSubstrList p sentinelChars = false)
    (hws : ∀ p ∈ pieces, ∀ c ∈ p, c.isWhitespace = false)
    (hwsl : ∀ p ∈ pieces, ∀ c ∈ p, (Char.toLower c).isWhitespace = false) :
    resolveCredential env (String.mk (intercalateSentinel pieces))
      = match env (String.mk pieces.flatten) with
        | some w => Except.ok w
        | none => Except.error (CredentialError.missingEnvironmentVariable
            (String.mk pieces.flatten)) := by
  have hmk : (String.mk (intercalateSentinel pieces)).toList = intercalateSentinel pieces := rfl
  have hsentws : ∀ x ∈ sentinelChars, x.isWhitespace = false := by decide
  have hsentwsl : ∀ x ∈ sentinelChars, (Char.toLower x).isWhitespace = false := by decide
  have hnws : ∀ c ∈ intercalateSentinel pieces, c.isWhitespace = false := by
    intro c hc
    rcases mem_intercalateSentinel pieces c hc with ⟨p, hp, hcp⟩ | hsent
    · exact hws p hp c hcp
    · exact hsentws c hsent
  have hnwsl : ∀ c ∈ (intercalateSentinel pieces).map Char.toLower, c.isWhitespace = false := by
    intro c hc
    rw [List.mem_map] at hc
    obtain ⟨c0, hc0, rfl⟩ := hc
    rcases mem_intercalateSentinel pieces c0 hc0 with ⟨p, hp, hcp⟩ | hsent
    · exact hwsl p hp c0 hcp
    · exact hsentwsl c0 hsent
  unfold resolveCredential
  rw [hmk]
  rw [pyStripL_eq_self _ hnwsl]
  have hcond : hasSubstrList ((intercalateSentinel pieces).map Char.toLower)
      sentinelChars = true := by
    obtain ⟨p, rest, rfl⟩ : ∃ p rest, pieces = p :: rest := by
      cases pieces with
      | nil => simp at hlen
      | cons a b => exact ⟨a, b, rfl⟩
    obtain ⟨q, rest2, rfl⟩ : ∃ q rest2, rest = q :: rest2 := by
      cases rest with
      | nil => simp at hlen
      | cons a b => exact ⟨a, b, rfl⟩
    rw [show intercalateSentinel (p :: q :: rest2)
        = p ++ (sentinelChars ++ intercalateSentinel (q :: rest2)) from rfl]
    rw [List.map_append, List.map_append]
    rw [show sentinelChars.map Char.toLower = sentinelChars from by decide]
    exact hasSubstr_infix_sentinel _ _
  rw [if_pos hcond]
  rw [pyStripL_eq_self _ hnws, replaceDrop_intercalate pieces hfree]

/-- An environment holding only `FOO=bob`. -/
def envFOOBob : String → Option String := fun k =>
  if k = "FOO" then some "bob" else none

/-- An empty process environment. -/
def envNone : String → Option String := fun _ => none

/-- Witness for `C3_strip_all_occurrences`: both sentinel copies of
`env.env.FOO` are removed and the environment variable `FOO` is read, and
the interior occurrence of `A.env.B` is removed so that the unset
variable `A.B` is reported missing. -/
theorem C3_strip_all_occurrences_witness :
    resolveCredential envFOOBob "env.env.FOO" = Except.ok "bob"
    ∧ resolveCredential envNone "A.env.B"
        = Except.error (CredentialError.missingEnvironmentVariable "A.B") := by
  constructor
  · have h := C3_strip_all_occurrences envFOOBob [[], [], ['F', 'O', 'O']]
      (by decide) (by decide) (by decide) (by decide)
    rw [show String.mk (intercalateSentinel [[], [], ['F', 'O', 'O']]) = "env.env.FOO"
      from by decide] at h
    rw [h]
    decide
  · have h := C3_strip_all_occurrences envNone [['A', '.'], ['B']]
      (by decide) (by decide) (by decide) (by decide)
    rw [show String.mk (intercalateSentinel [['A', '.'], ['B']]) = "A.env.B"
      from by decide] at h
    rw [h]
    decide

/-- Claim C4: when the trimmed, lowercased credential value contains the
sentinel, resolution succeeds with the value of the referenced environment
variable and fails with `MissingEnvironmentVariable` naming that variable
iff it is unset; when the value does not contain the sentinel, the raw
value passes through unchanged. -/
theorem C4_credential_resolution (env : String → Option String) (v : String) :
    (hasSubstrList (pyStripL (v.toList.map Char.toLower)) sentinelChars = true →
        (∀ w, resolveCredential env v = Except.ok w
            ↔ env (String.mk (replaceDropSentinel (pyStripL v.toList))) = some w)
        ∧ (resolveCredential env v
              = Except.error (CredentialError.missingEnvironmentVariable
                  (String.mk (replaceDropSentinel (pyStripL v.toList))))
            ↔ env (String.mk (replaceDropSentinel (pyStripL v.toList))) = none))
    ∧ (hasSubstrList (pyStripL (v.toList.map Char.toLower)) sentinelChars = false →
        resolveCredential env v = Except.ok v) := by
  constructor
  · intro hcond
    unfold resolveCredential
    rw [if_pos hcond]
    cases he : env (String.mk (replaceDropSentinel (pyStripL v.toList))) with
    | some w' => simp
    | none => simp
  · intro hcond
    unfold resolveCredential
    rw [if_neg (by rw [hcond]; exact Bool.false_ne_true)]

/-- Witness for `C4_credential_resolution`: the round-trip example of the
specification (`user = "env.FOO"` with `FOO=bob` resolves to `"bob"`, a
plain `"bob"` passes through, and an unset variable fails naming it). -/
theorem C4_credential_resolution_witness :
    resolveCredential envFOOBob "env.FOO" = Except.ok "bob"
    ∧ resolveCredential envFOOBob "bob" = Except.ok "bob"
    ∧ resolveCredential envNone "env.FOO"
        = Except.error (CredentialError.missingEnvironmentVariable "FOO") := by
  refine ⟨?_, ?_, ?_⟩
  · exact (((C4_credential_resolution envFOOBob "env.FOO").1 (by decide)).1 "bob").mpr (by decide)
  · exact (C4_credential_resolution envFOOBob "bob").2 (by decide)
  · have h := ((C4_credential_resolution envNone "env.FOO").1 (by decide)).2.mpr (by decide)
    rw [show String.mk (replaceDropSentinel (pyStripL "env.FOO".toList)) = "FOO" from by decide] at h
    exact h

/-! ## URL grammar (`PageManager` static methods)

The source uses three regular expressions:
* `url_pattern = https?://[-\w_.]*:?\d{0,5}(.*)`
* `url_data_pattern = /display/([-\w_?~]*)/(.*)`
* `url_id_pattern = .*pageId=(\d+)$`

They are compiled here into deterministic matchers over character lists.
The relevant `re` semantics, resolved statically:
* every component of `url_pattern` after the literal scheme may match the
  empty string, so an anchored match succeeds exactly on strings starting
  with `http://` or `https://`, and never needs backtracking: the host
  class is consumed greedily, a following `:` is consumed if present, then
  up to five digits (greedily — after a maximal host run the next
  character cannot be a digit, digits being word characters, so digits
  only appear after the colon), and `(.*)` captures the rest of the line
  (`.` does not match a newline);
* in `url_data_pattern` the space-key class excludes `/`, so the greedy
  class run is final: if the character after the maximal run is not `/`
  no shorter run can succeed either, and `(.*)` takes the rest of the
  line;
* in `url_id_pattern`, `$` matches at the end of the string or just
  before one final trailing newline, and a successful match decomposes the
  subject (minus that optional newline) as `p ++ "pageId=" ++ digits` with
  `p` newline-free; the digit group is then necessarily the maximal
  trailing digit run, because the character before any valid group is the
  non-digit `=` — so the greedy search has exactly one solution and the
  matcher below computes it directly.
ASCII granularity: `\w` is modelled as `[A-Za-z0-9_]` and `\d` as
`[0-9]`. -/

/-- Characters of the `url_pattern` host class `[-\w_.]`. -/
def isHostChar (c : Char) : Bool := c.isAlphanum || c = '-' || c = '_' || c = '.'

/-- Characters of the `url_data_pattern` space-key class `[-\w_?~]`. -/
def isSpaceKeyChar (c : Char) : Bool :=
  c.isAlphanum || c = '-' || c = '_' || c = '?' || c = '~'

/-- `PageManager.is_url`: `url_pattern.match(url)` succeeds iff the string
starts with `http://` or `https://` (everything after the scheme may be
empty). -/
def is_url (url : String) : Bool :=
  pyStartswith url "http://" || pyStartswith url "https://"

/-- `re.search(url_pattern, url)`: an unanchored match exists iff the
string contains `http://` or `https://` somewhere. -/
def containsScheme (url : String) : Bool :=
  hasSubstrList url.toList "http://".toList || hasSubstrList url.toList "https://".toList

/-- Greedy `\d{0,5}`: consume up to `n` leading digits. -/
def dropDigitsUpTo : Nat → List Char → List Char
  | 0, cs => cs
  | _ + 1, [] => []
  | n + 1, c :: t => if c.isDigit then dropDigitsUpTo n t else c :: t

/-- The tail of the string after the scheme, or `none` when the anchored
`url_pattern` match fails (the string does not start with a scheme). -/
def urlRestAfterScheme (url : String) : Option (List Char) :=
  if pyStartswith url "http://" then some (url.toList.drop 7)
  else if pyStartswith url "https://" then some (url.toList.drop 8)
  else none

/-- `re.match(url_pattern, url).group(1)`: strip the scheme, the greedy
host-class run, an optional colon, up to five digits, and capture the rest
of the line. -/
def urlDataGroup (url : String) : Option (List Char) :=
  match urlRestAfterScheme url with
  | none => none
  | some rest =>
      let r1 := rest.dropWhile isHostChar
      let r2 := match r1 with
                | ':' :: t => dropDigitsUpTo 5 t
                | other => other
      some (r2.takeWhile (fun c => c != '\n'))

/-- `re.match(url_data_pattern, data)`: the literal `/display/`, the
greedy space-key run (which must be followed by `/`), and the rest of the
line as the title capture. -/
def displayMatch (data : List Char) : Option (List Char × List Char) :=
  if "/display/".toList.isPrefixOf data then
    match (data.drop 9).dropWhile isSpaceKeyChar with
    | '/' :: tail =>
        some ((data.drop 9).takeWhile isSpaceKeyChar, tail.takeWhile (fun c => c != '\n'))
    | _ => none
  else none

/-- `title.replace('+', ' ')`. -/
def plusToSpace (cs : List Char) : List Char :=
  cs.map (fun c => if c = '+' then ' ' else c)

/-- The maximal trailing digit run of a character list. -/
def trailingDigits (cs : List Char) : List Char :=
  (cs.reverse.takeWhile Char.isDigit).reverse

/-- `re.match(url_id_pattern, cs)`, digit group: the unique decomposition
described in the section comment, computed directly. -/
def pageIdCaptureCore (core : List Char) : Option (List Char) :=
  let d := trailingDigits core
  if d.isEmpty then none
  else
    let stem := core.take (core.length - d.length)
    if "pageId=".toList.isSuffixOf stem then
      if (stem.take (stem.length - 7)).all (fun c => c != '\n') then some d else none
    else none

def pageIdCapture (cs : List Char) : Option (List Char) :=
  if cs.getLast? = some '\n' then pageIdCaptureCore cs.dropLast else pageIdCaptureCore cs

/-- Failure modes of the URL extractors.  The three named errors model the
three `raise Exception(...)` statements of the source, which are reachable
only when `re.search(url_pattern, url)` fails (no scheme substring);
`attributeErrorNoneGroup` models the `AttributeError` Python raises when
an inner `re.match(...)` returns `None` and the source calls `.group(...)`
on it. -/
inductive UrlError where
  | attributeErrorNoneGroup
  | spaceNotFound (url : String)
  | titleNotFound (url : String)
  | pageIdNotFound (url : String)
  deriving DecidableEq

/-- `PageManager.is_id_in_url`. -/
def is_id_in_url (url : String) : Bool :=
  (pageIdCapture url.toList).isSome

/-- `PageManager.get_id_from_url`. -/
def get_id_from_url (url : String) : Except UrlError String :=
  if containsScheme url then
    match urlDataGroup url with
    | none => .error .attributeErrorNoneGroup
    | some data =>
        match pageIdCapture data with
        | some d => .ok (String.mk d)
        | none => .error .attributeErrorNoneGroup
  else .error (.pageIdNotFound url)

/-- `PageManager.get_space_from_url`. -/
def get_space_from_url (url : String) : Except UrlError String :=
  if containsScheme url then
    match urlDataGroup url with
    | none => .error .attributeErrorNoneGroup
    | some data =>
        match displayMatch data with
        | some pair => .ok (String.mk pair.1)
        | none => .error .attributeErrorNoneGroup
  else .error (.spaceNotFound url)

/-- `PageManager.get_page_title_from_url`. -/
def get_page_title_from_url (url : String) (formatted : Bool) : Except UrlError String :=
  if containsScheme url then
    match urlDataGroup url with
    | none => .error .attributeErrorNoneGroup
    | some data =>
        match displayMatch data with
        | some pair =>
            .ok (String.mk (if formatted then plusToSpace pair.2 else pair.2))
        | none => .error .attributeErrorNoneGroup
  else .error (.titleNotFound url)

/-- Does the extractor fail with the `"pageId not found in URL"` exception
(`PageIdNotFound` in the specification's taxonomy)? -/
def failsWithPageIdNotFound (r : Except UrlError String) : Bool :=
  match r with
  | .error (.pageIdNotFound _) => true
  | _ => false

/-- Claim C5 (code bug): on a display-style URL — a valid URL without a
trailing `pageId=<digits>` — `get_id_from_url` does not raise the
`"pageId not found in URL"` exception naming the URL: the inner
`re.match(url_id_pattern, url_data)` returns `None` and calling
`.group(1)` on it raises a bare `AttributeError`; the named exception is
reachable only when the string contains no scheme at all. -/
theorem C5_display_url_wrong_error :
    is_url "http://h:8090/display/IIC/I+IC" = true
    ∧ get_id_from_url "http://h:8090/display/IIC/I+IC" = .error .attributeErrorNoneGroup
    ∧ failsWithPageIdNotFound (get_id_from_url "http://h:8090/display/IIC/I+IC") = false := by
  refine ⟨by decide, by decide, by decide⟩

theorem toList_append (s t : String) : (s ++ t).toList = s.toList ++ t.toList := rfl

theorem hasSubstr_of_prefix (l pat : List Char) (h : pat.isPrefixOf l = true) :
    hasSubstrList l pat = true := by
  cases l with
  | nil =>
      cases pat with
      | nil => rfl
      | cons c t => simp [List.isPrefixOf] at h
  | cons c t => rw [hasSubstrList, h, Bool.true_or]

theorem dropWhile_append_of_all {α : Type} (p : α → Bool) (l₁ l₂ : List α)
    (h : ∀ c ∈ l₁, p c = true) : (l₁ ++ l₂).dropWhile p = l₂.dropWhile p := by
  induction l₁ with
  | nil => rfl
  | cons c t ih =>
      rw [List.cons_append, List.dropWhile_cons_of_pos (h c (List.mem_cons_self _ _))]
      exact ih (fun x hx => h x (List.mem_cons_of_mem _ hx))

theorem takeWhile_eq_self_of_all {α : Type} (p : α → Bool) (l : List α)
    (h : ∀ c ∈ l, p c = true) : l.takeWhile p = l := by
  induction l with
  | nil => rfl
  | cons c t ih =>
      rw [List.takeWhile_cons_of_pos (h c (List.mem_cons_self _ _)),
        ih (fun x hx => h x (List.mem_cons_of_mem _ hx))]

theorem dropDigitsUpTo_append (n : Nat) (dl rest : List Char)
    (hd : ∀ c ∈ dl, c.isDigit = true) (hlen : dl.length ≤ n)
    (hrest : ∀ c, rest.head? = some c → c.isDigit = false) :
    dropDigitsUpTo n (dl ++ rest) = rest := by
  induction dl generalizing n with
  | nil =>
      cases n with
      | zero => rfl
      | succ m =>
          cases rest with
          | nil => rfl
          | cons c t =>
              show dropDigitsUpTo (m + 1) (c :: t) = c :: t
              unfold dropDigitsUpTo
              rw [if_neg]
              rw [hrest c rfl]
              exact Bool.false_ne_true
  | cons d dl' ih =>
      cases n with
      | zero => simp at hlen
      | succ m =>
          rw [List.cons_append]
          show dropDigitsUpTo (m + 1) (d :: (dl' ++ rest)) = rest
          unfold dropDigitsUpTo
          rw [if_pos (hd d (List.mem_cons_self _ _))]
          exact ih m (fun c hc => hd c (List.mem_cons_of_mem _ hc))
            (by have := hlen; simp only [List.length_cons] at this; omega)

theorem urlDataGroup_host_port (hostName portDigits path : String)
    (hh : ∀ c ∈ hostName.toList, isHostChar c = true)
    (hd : ∀ c ∈ portDigits.toList, c.isDigit = true)
    (hlen : portDigits.length ≤ 5)
    (hhead : path.toList.head? = some '/')
    (hnl : ∀ c ∈ path.toList, c ≠ '\n') :
    urlDataGroup ("http://" ++ hostName ++ ":" ++ portDigits ++ path) = some path.toList := by
  have hU : ("http://" ++ hostName ++ ":" ++ portDigits ++ path).toList
      = "http://".toList ++ (hostName.toList ++ ([':'] ++ (portDigits.toList ++ path.toList))) := by
    rw [toList_append, toList_append, toList_append, toList_append]
    rw [show (":" : String).toList = [':'] from rfl]
    simp [List.append_assoc]
  have hpre : pyStartswith ("http://" ++ hostName ++ ":" ++ portDigits ++ path) "http://" = true := by
    unfold pyStartswith
    rw [hU]
    rw [List.isPrefixOf_iff_prefix]
    exact List.prefix_append _ _
  unfold urlDataGroup urlRestAfterScheme
  rw [if_pos hpre, hU]
  rw [List.drop_left' (by rfl)]
  have hdw : (hostName.toList ++ ([':'] ++ (portDigits.toList ++ path.toList))).dropWhile isHostChar
      = ':' :: (portDigits.toList ++ path.toList) := by
    rw [dropWhile_append_of_all isHostChar hostName.toList _ hh]
    rw [List.singleton_append]
    rw [List.dropWhile_cons_of_neg]
    rw [show isHostChar ':' = false from by decide]
    exact Bool.false_ne_true
  dsimp only
  rw [hdw]
  have hdrop : dropDigitsUpTo 5 (portDigits.toList ++ path.toList) = path.toList := by
    apply dropDigitsUpTo_append 5 _ _ hd
    · exact hlen
    · intro c hc
      rw [hhead] at hc
      cases hc
      have : ('/' : Char).isDigit = false := by decide
      exact this
  show some ((dropDigitsUpTo 5 (portDigits.toList ++ path.toList)).takeWhile (fun c => c != '\n'))
      = some path.toList
  rw [hdrop]
  rw [takeWhile_eq_self_of_all _ _ (fun c hc => by
    have := hnl c hc
    simp [bne, this])]

theorem displayMatch_eq (spaceKey title : String)
    (hs : ∀ c ∈ spaceKey.toList, isSpaceKeyChar c = true)
    (ht : ∀ c ∈ title.toList, c ≠ '\n') :
    displayMatch ("/display/".toList ++ spaceKey.toList ++ '/' :: title.toList)
      = some (spaceKey.toList, title.toList) := by
  unfold displayMatch
  rw [if_pos (by
    rw [List.isPrefixOf_iff_prefix, List.append_assoc]
    exact List.prefix_append _ _)]
  rw [List.append_assoc, List.drop_left' (by rfl)]
  have hdw : (spaceKey.toList ++ '/' :: title.toList).dropWhile isSpaceKeyChar
      = '/' :: title.toList := by
    rw [dropWhile_append_of_all isSpaceKeyChar spaceKey.toList _ hs]
    rw [List.dropWhile_cons_of_neg]
    rw [show isSpaceKeyChar '/' = false from by decide]
    exact Bool.false_ne_true
  rw [hdw]
  have htw : (spaceKey.toList ++ '/' :: title.toList).takeWhile isSpaceKeyChar
      = spaceKey.toList := by
    rw [List.takeWhile_append_of_pos hs]
    rw [List.takeWhile_cons_of_neg (by
      rw [show isSpaceKeyChar '/' = false from by decide]
      exact Bool.false_ne_true)]
    exact List.append_nil _
  show some ((spaceKey.toList ++ '/' :: title.toList).takeWhile isSpaceKeyChar,
      title.toList.takeWhile (fun c => c != '\n')) = some (spaceKey.toList, title.toList)
  rw [htw]
  rw [takeWhile_eq_self_of_all _ _ (fun c hc => by
    have := ht c hc
    simp [bne, this])]

/-- Claim C8: for every display-style URL
`http://host:port/display/<space>/<title>` — host in the host class, port
up to five digits, space key in the space-key class, newline-free title
that may itself contain further `/` characters — `get_space_from_url`
returns the space key (the segment after `/display/` up to the first `/`)
and `get_page_title_from_url` returns everything after it, with `+`
replaced by a space when `formatted` is true and verbatim when it is
false. -/
theorem C8_display_extraction (hostName portDigits spaceKey title : String)
    (hh : ∀ c ∈ hostName.toList, isHostChar c = true)
    (hd : ∀ c ∈ portDigits.toList, c.isDigit = true)
    (hlen : portDigits.length ≤ 5)
    (hs : ∀ c ∈ spaceKey.toList, isSpaceKeyChar c = true)
    (ht : ∀ c ∈ title.toList, c ≠ '\n') :
    get_space_from_url
        ("http://" ++ hostName ++ ":" ++ portDigits ++ ("/display/" ++ spaceKey ++ "/" ++ title))
      = .ok spaceKey
    ∧ get_page_title_from_url
        ("http://" ++ hostName ++ ":" ++ portDigits ++ ("/display/" ++ spaceKey ++ "/" ++ title))
        true
      = .ok (String.mk (plusToSpace title.toList))
    ∧ get_page_title_from_url
        ("http://" ++ hostName ++ ":" ++ portDigits ++ ("/display/" ++ spaceKey ++ "/" ++ title))
        false
      = .ok title := by
  have hpathl : ("/display/" ++ spaceKey ++ "/" ++ title).toList
      = "/display/".toList ++ spaceKey.toList ++ '/' :: title.toList := by
    rw [toList_append, toList_append, toList_append]
    rw [show ("/" : String).toList = ['/'] from rfl]
    simp [List.append_assoc]
  have hhead : ("/display/" ++ spaceKey ++ "/" ++ title).toList.head? = some '/' := by
    rw [hpathl]
    rfl
  have hnl : ∀ c ∈ ("/display/" ++ spaceKey ++ "/" ++ title).toList, c ≠ '\n' := by
    intro c hc
    rw [hpathl] at hc
    rcases List.mem_append.mp hc with hc' | hc'
    · rcases List.mem_append.mp hc' with hc'' | hc''
      · have hall : ∀ x ∈ "/display/".toList, x ≠ '\n' := by decide
        exact hall c hc''
      · intro hcn
        have := hs c hc''
        rw [hcn] at this
        exact absurd this (by decide)
    · rcases List.mem_cons.mp hc' with hc'' | hc''
      · rw [hc'']; decide
      · exact ht c hc''
  have hgroup := urlDataGroup_host_port hostName portDigits
    ("/display/" ++ spaceKey ++ "/" ++ title) hh hd hlen hhead hnl
  have hdm : displayMatch ("/display/" ++ spaceKey ++ "/" ++ title).toList
      = some (spaceKey.toList, title.toList) := by
    rw [hpathl]
    exact displayMatch_eq spaceKey title hs ht
  have hscheme : containsScheme
      ("http://" ++ hostName ++ ":" ++ portDigits ++ ("/display/" ++ spaceKey ++ "/" ++ title))
      = true := by
    unfold containsScheme
    apply Bool.or_eq_true_iff.mpr
    left
    apply hasSubstr_of_prefix
    rw [List.isPrefixOf_iff_prefix]
    rw [toList_append, toList_append, toList_append, toList_append, List.append_assoc,
      List.append_assoc, List.append_assoc]
    exact List.prefix_append _ _
  have hmkSpace : String.mk spaceKey.toList = spaceKey := by cases spaceKey; rfl
  have hmkTitle : String.mk title.toList = title := by cases title; rfl
  refine ⟨?_, ?_, ?_⟩
  · unfold get_space_from_url
    rw [if_pos hscheme, hgroup]
    dsimp only
    rw [hdm]
    dsimp only
    rw [hmkSpace]
  · unfold get_page_title_from_url
    rw [if_pos hscheme, hgroup]
    dsimp only
    rw [hdm]
    rfl
  · unfold get_page_title_from_url
    rw [if_pos hscheme, hgroup]
    dsimp only
    rw [hdm]
    show Except.ok (String.mk title.toList) = Except.ok title
    rw [hmkTitle]

/-- Witness for `C8_display_extraction`: the specification's example URL
`http://h:8090/display/IIC/I+IC`. -/
theorem C8_display_extraction_witness :
    get_space_from_url ("http://" ++ "h" ++ ":" ++ "8090" ++ ("/display/" ++ "IIC" ++ "/" ++ "I+IC"))
      = .ok "IIC"
    ∧ get_page_title_from_url
        ("http://" ++ "h" ++ ":" ++ "8090" ++ ("/display/" ++ "IIC" ++ "/" ++ "I+IC")) true
      = .ok (String.mk (plusToSpace "I+IC".toList))
    ∧ get_page_title_from_url
        ("http://" ++ "h" ++ ":" ++ "8090" ++ ("/display/" ++ "IIC" ++ "/" ++ "I+IC")) false
      = .ok "I+IC" :=
  C8_display_extraction "h" "8090" "IIC" "I+IC"
    (by decide) (by decide) (by decide) (by decide) (by decide)

theorem getLast?_some_mem {α : Type} (l : List α) (h : l ≠ []) :
    ∃ c, l.getLast? = some c ∧ c ∈ l := by
  induction l with
  | nil => exact absurd rfl h
  | cons x t ih =>
      cases t with
      | nil => exact ⟨x, rfl, List.mem_cons_self _ _⟩
      | cons y u =>
          obtain ⟨c, hc1, hc2⟩ := ih (by simp)
          exact ⟨c, by rw [List.getLast?_cons_cons]; exact hc1, List.mem_cons_of_mem _ hc2⟩

theorem eq_dropLast_append_of_getLast? {α : Type} (l : List α) (c : α)
    (h : l.getLast? = some c) : l = l.dropLast ++ [c] := by
  induction l with
  | nil => cases h
  | cons x t ih =>
      cases t with
      | nil =>
          cases h
          rfl
      | cons y u =>
          rw [List.getLast?_cons_cons] at h
          have := ih h
          rw [List.dropLast_cons₂, List.cons_append, ← this]

theorem trailingDigits_all (core : List Char) :
    ∀ c ∈ trailingDigits core, c.isDigit = true := by
  intro c hc
  unfold trailingDigits at hc
  rw [List.mem_reverse] at hc
  exact List.mem_takeWhile_imp hc

theorem trailingDigits_decomp (core : List Char) :
    core = core.take (core.length - (trailingDigits core).length) ++ trailingDigits core := by
  have hsuf : trailingDigits core <:+ core := by
    unfold trailingDigits
    apply List.reverse_prefix.mp
    rw [List.reverse_reverse]
    exact List.takeWhile_prefix _
  obtain ⟨t, ht⟩ := hsuf
  have hlen : core.length - (trailingDigits core).length = t.length := by
    conv in core.length => rw [← ht]
    rw [List.length_append]
    omega
  rw [hlen]
  conv in core.take t.length => rw [← ht]
  rw [List.take_left]
  exact ht.symm

theorem trailingDigits_append (xs d : List Char) (c : Char)
    (hd : ∀ x ∈ d, x.isDigit = true)
    (hlast : xs.getLast? = some c) (hc : c.isDigit = false) :
    trailingDigits (xs ++ d) = d := by
  unfold trailingDigits
  rw [List.reverse_append]
  rw [List.takeWhile_append_of_pos (fun x hx => hd x (List.mem_reverse.mp hx))]
  have hrev : xs.reverse.head? = some c := by rw [List.head?_reverse]; exact hlast
  cases hxr : xs.reverse with
  | nil => rw [hxr] at hrev; cases hrev
  | cons y t =>
      rw [hxr] at hrev
      have hy : y = c := by cases hrev; rfl
      rw [List.takeWhile_cons_of_neg (by rw [hy, hc]; exact Bool.false_ne_true)]
      rw [List.append_nil, List.reverse_reverse]

theorem pageIdCaptureCore_eq (p d : List Char) (hdne : d ≠ [])
    (hdig : ∀ c ∈ d, c.isDigit = true) (hp : ∀ c ∈ p, c ≠ '\n') :
    pageIdCaptureCore (p ++ "pageId=".toList ++ d) = some d := by
  have htd : trailingDigits (p ++ "pageId=".toList ++ d) = d := by
    apply trailingDigits_append _ _ '=' hdig ?_ (by decide)
    rw [List.getLast?_append]
    rfl
  have hlen7 : ("pageId=".toList).length = 7 := rfl
  have hstem : (p ++ "pageId=".toList ++ d).take
      ((p ++ "pageId=".toList ++ d).length - d.length) = p ++ "pageId=".toList := by
    have : (p ++ "pageId=".toList ++ d).length - d.length = (p ++ "pageId=".toList).length := by
      simp only [List.length_append]
      omega
    rw [this, List.take_left]
  unfold pageIdCaptureCore
  dsimp only
  rw [htd, hstem]
  rw [if_neg (by
    rw [List.isEmpty_eq_true]
    exact hdne)]
  rw [if_pos (by
    rw [List.isSuffixOf_iff_suffix]
    exact ⟨p, rfl⟩)]
  rw [if_pos (by
    have hpl : (p ++ "pageId=".toList).take ((p ++ "pageId=".toList).length - 7) = p := by
      have : (p ++ "pageId=".toList).length - 7 = p.length := by
        simp only [List.length_append, hlen7]
        omega
      rw [this, List.take_left]
    rw [hpl]
    rw [List.all_eq_true]
    intro c hc
    have := hp c hc
    simp [bne, this])]

theorem pageIdCaptureCore_some (core d : List Char)
    (h : pageIdCaptureCore core = some d) :
    ∃ p, core = p ++ "pageId=".toList ++ d ∧ d ≠ [] ∧ (∀ c ∈ d, c.isDigit = true)
      ∧ (∀ c ∈ p, c ≠ '\n') := by
  unfold pageIdCaptureCore at h
  dsimp only at h
  by_cases h1 : (trailingDigits core).isEmpty = true
  · rw [if_pos h1] at h; cases h
  · rw [if_neg h1] at h
    by_cases h2 : "pageId=".toList.isSuffixOf
        (core.take (core.length - (trailingDigits core).length)) = true
    · rw [if_pos h2] at h
      by_cases h3 : ((core.take (core.length - (trailingDigits core).length)).take
          ((core.take (core.length - (trailingDigits core).length)).length - 7)).all
            (fun c => c != '\n') = true
      · rw [if_pos h3] at h
        have hdd : trailingDigits core = d := by cases h; rfl
        have hdec := trailingDigits_decomp core
        rw [List.isSuffixOf_iff_suffix] at h2
        obtain ⟨p, hps⟩ := h2
        refine ⟨p, ?_, ?_, ?_, ?_⟩
        · rw [← hdd]
          conv in core => rw [hdec]
          rw [← hps]
        · intro hdnil
          rw [hdd, hdnil] at h1
          exact h1 rfl
        · rw [← hdd]
          exact trailingDigits_all core
        · have hplen : (core.take (core.length - (trailingDigits core).length)).take
              ((core.take (core.length - (trailingDigits core).length)).length - 7) = p := by
            rw [← hps]
            have : (p ++ "pageId=".toList).length - 7 = p.length := by
              simp only [List.length_append]
              rw [show ("pageId=".toList).length = 7 from rfl]
              omega
            rw [this, List.take_left]
          rw [hplen] at h3
          rw [List.all_eq_true] at h3
          intro c hc
          have := h3 c hc
          simpa [bne] using this
      · rw [if_neg h3] at h; cases h
    · rw [if_neg h2] at h; cases h

/-- Claim C9, counterexample: Python's `$` also matches just before one
final trailing newline, so `is_id_in_url "a?pageId=5\n"` is true even
though the string ends in a newline, not in the digit a string ending in
`pageId=<digits>` would end in. -/
theorem C9_counterexample :
    is_id_in_url "a?pageId=5\n" = true
    ∧ "a?pageId=5\n".toList.getLast? = some '\n'
    ∧ Char.isDigit '\n' = false := by
  refine ⟨by decide, by decide, by decide⟩

/-- Claim C9 (amended): `is_id_in_url s` is true iff `s`, after discarding
at most one final trailing newline, decomposes as
`p ++ "pageId=" ++ <digits>` with a nonempty digit group and a
newline-free `p` — in particular a URL with further query parameters after
`pageId=<digits>` is not recognized — and when the pattern matches the
regex capture returns exactly that digit sequence. -/
theorem C9_pageid_match (s : String) :
    (is_id_in_url s = true
      ↔ ∃ p d, d ≠ [] ∧ (∀ c ∈ d, c.isDigit = true) ∧ (∀ c ∈ p, c ≠ '\n')
          ∧ (s.toList = p ++ "pageId=".toList ++ d
             ∨ s.toList = (p ++ "pageId=".toList ++ d) ++ ['\n']))
    ∧ (∀ p d, d ≠ [] → (∀ c ∈ d, c.isDigit = true) → (∀ c ∈ p, c ≠ '\n') →
        s.toList = p ++ "pageId=".toList ++ d →
        pageIdCapture s.toList = some d) := by
  have hsecond : ∀ p d, d ≠ [] → (∀ c ∈ d, c.isDigit = true) → (∀ c ∈ p, c ≠ '\n') →
      s.toList = p ++ "pageId=".toList ++ d →
      pageIdCapture s.toList = some d := by
    intro p d hdne hdig hp hs
    obtain ⟨c, hc1, hc2⟩ := getLast?_some_mem d hdne
    have hlast : s.toList.getLast? = some c := by
      rw [hs, List.getLast?_append, List.getLast?_append, hc1]
      rfl
    unfold pageIdCapture
    rw [if_neg (by
      rw [hlast]
      intro hcontra
      have : c = '\n' := by cases hcontra; rfl
      rw [this] at hc2
      have := hdig '\n' hc2
      exact absurd this (by decide))]
    rw [hs]
    exact pageIdCaptureCore_eq p d hdne hdig hp
  refine ⟨⟨?_, ?_⟩, hsecond⟩
  · intro h
    unfold is_id_in_url at h
    rw [Option.isSome_iff_exists] at h
    obtain ⟨d, hd⟩ := h
    unfold pageIdCapture at hd
    by_cases hlast : s.toList.getLast? = some '\n'
    · rw [if_pos hlast] at hd
      obtain ⟨p, hcore, hdne, hdig, hp⟩ := pageIdCaptureCore_some _ _ hd
      refine ⟨p, d, hdne, hdig, hp, Or.inr ?_⟩
      have := eq_dropLast_append_of_getLast? s.toList '\n' hlast
      rw [this, hcore]
    · rw [if_neg hlast] at hd
      obtain ⟨p, hcore, hdne, hdig, hp⟩ := pageIdCaptureCore_some _ _ hd
      exact ⟨p, d, hdne, hdig, hp, Or.inl hcore⟩
  · rintro ⟨p, d, hdne, hdig, hp, hs | hs⟩
    · unfold is_id_in_url
      rw [hsecond p d hdne hdig hp hs]
      rfl
    · unfold is_id_in_url pageIdCapture
      rw [if_pos (by rw [hs]; exact List.getLast?_concat _)]
      rw [show s.toList.dropLast = p ++ "pageId=".toList ++ d from by
        rw [hs]; exact List.dropLast_concat]
      rw [pageIdCaptureCore_eq p d hdne hdig hp]
      rfl

/-- Witness for `C9_pageid_match` at the specification's example URL. -/
theorem C9_pageid_match_witness :
    pageIdCapture "http://h:8090/pages/viewpage.action?pageId=123".toList
      = some ['1', '2', '3'] :=
  (C9_pageid_match "http://h:8090/pages/viewpage.action?pageId=123").2
    "http://h:8090/pages/viewpage.action?".toList ['1', '2', '3']
    (by decide) (by decide) (by decide) (by decide)

end PageGen
